import Mathlib

/-!
Verification of the event-reconciliation core of `serial_logger.py`
(EDF vs RMS trace analysis).

The embedding follows the source closely:
* `Event`/`EventKind` mirror the parsed records `(time_ms, event, task, extra)`.
* `pairAll` mirrors the first-fit pairing loops in `build_task_execution_lists`
  (lines 47-78): for each START (resp. RELEASE) timestamp, the earliest
  unconsumed COMPLETE with timestamp `≥ s` is taken; the duration is appended
  when non-negative, otherwise a warning is counted and the sample dropped;
  the index is marked consumed either way.
* `summarize` mirrors the metric row built in `analyze_from_lists`
  (lines 94-104), with Python floats modelled as rationals and Python
  `round(x, k)` modelled as round-to-nearest at `10^-k` resolution.
* `wdMean` mirrors `watchdog_interval` (lines 107-112).
-/

inductive EventKind where
  | START
  | COMPLETE
  | RELEASE
  | MISS
  | WDT_PET
  | INFO
deriving DecidableEq, Repr

structure Event where
  time_ms : Int
  event : EventKind
  task : String
deriving DecidableEq, Repr

/-- Python `round(x, 2)` on a rational value: round to nearest hundredth. -/
def round2 (q : ℚ) : ℚ := (round (q * 100) : ℚ) / 100

/-- Python `round(x, 3)` on a rational value: round to nearest thousandth. -/
def round3 (q : ℚ) : ℚ := (round (q * 1000) : ℚ) / 1000

/-- The scan `next((i for i, c in enumerate(completes) if c >= s and i not in used), None)`
starting at index `k`: first index-value pair with value `≥ s` and index unconsumed. -/
def findMatchFrom (used : List Nat) (s : Int) : Nat → List Int → Option (Nat × Int)
  | _, [] => none
  | k, c :: cs =>
    if s ≤ c ∧ k ∉ used then some (k, c) else findMatchFrom used s (k + 1) cs

def findMatch (completes : List Int) (used : List Nat) (s : Int) : Option (Nat × Int) :=
  findMatchFrom used s 0 completes

/-- The pairing loop of `build_task_execution_lists`: walks the START (or RELEASE)
timestamps in order, consuming COMPLETE indices first-fit.  Returns the list of
accepted durations, the final consumed-index set, and the number of
negative-duration warnings. -/
def pairAux (completes : List Int) : List Int → List Nat → List Int × List Nat × Nat
  | [], used => ([], used, 0)
  | s :: rest, used =>
    match findMatch completes used s with
    | some (i, c) =>
      let r := pairAux completes rest (i :: used)
      if 0 ≤ c - s then ((c - s) :: r.1, r.2.1, r.2.2)
      else (r.1, r.2.1, r.2.2 + 1)
    | none => pairAux completes rest used

def pairAll (starts completes : List Int) : List Int × List Nat × Nat :=
  pairAux completes starts []

/-- The durations produced by the pairing loop (the `execs` / `resps` list). -/
def pairEvents (starts completes : List Int) : List Int :=
  (pairAll starts completes).1

/-- The consumed COMPLETE indices after the pairing loop. -/
def pairUsed (starts completes : List Int) : List Nat :=
  (pairAll starts completes).2.1

/-- The number of negative-duration warnings emitted by the pairing loop. -/
def pairWarns (starts completes : List Int) : Nat :=
  (pairAll starts completes).2.2

/-- Spec-level description of the Execution-Interval pairing: each START is
paired with the lowest-index not-yet-consumed COMPLETE `≥ s`; the duration
`complete - start` is appended unconditionally and the COMPLETE is marked
consumed; a START with no match contributes nothing. -/
def execSpecAux (completes : List Int) : List Int → List Nat → List Int
  | [], _ => []
  | s :: rest, used =>
    match findMatch completes used s with
    | some (i, c) => (c - s) :: execSpecAux completes rest (i :: used)
    | none => execSpecAux completes rest used

def execSpec (starts completes : List Int) : List Int :=
  execSpecAux completes starts []

/-- Stable insertion of an event into a time-sorted list (ties keep stream order). -/
def insertEv (e : Event) : List Event → List Event
  | [] => [e]
  | x :: xs => if e.time_ms ≤ x.time_ms then e :: x :: xs else x :: insertEv e xs

/-- Model of `dft.sort_values('time_ms')`: stable sort of a task's events by timestamp. -/
def sortEv : List Event → List Event
  | [] => []
  | x :: xs => insertEv x (sortEv xs)

/-- Timestamps of the events of one kind, in list order. -/
def timesOf (k : EventKind) (tl : List Event) : List Int :=
  (tl.filter (fun e => e.event = k)).map (fun e => e.time_ms)

structure Recon where
  execs : List Int
  resps : List Int
  releases : List Int
deriving DecidableEq, Repr

/-- The per-task body of `build_task_execution_lists` (lines 41-82): sort the
task's events by time, extract START/COMPLETE/RELEASE timestamp lists, pair
starts and releases against the COMPLETE list with independent consumed sets. -/
def reconcile (tl : List Event) : Recon :=
  let sorted := sortEv tl
  let starts := timesOf .START sorted
  let completes := timesOf .COMPLETE sorted
  let releases := timesOf .RELEASE sorted
  { execs := pairEvents starts completes
    resps := pairEvents releases completes
    releases := releases }

/-- Model of `df['task'].unique()`: task names in order of first occurrence,
with `seen` the names already emitted. -/
def dedupFirstAux (seen : List String) : List String → List String
  | [] => []
  | x :: xs => if x ∈ seen then dedupFirstAux seen xs else x :: dedupFirstAux (x :: seen) xs

def dedupFirst (l : List String) : List String := dedupFirstAux [] l

/-- Line 35: `[t for t in df['task'].unique() if t not in ['WDT','INFO','Supervisor']]`. -/
def tasksOf (df : List Event) : List String :=
  (dedupFirst (df.map (fun e => e.task))).filter
    (fun t => t ≠ "WDT" ∧ t ≠ "INFO" ∧ t ≠ "Supervisor")

/-- Embedding of `build_task_execution_lists`: per-task reconciliation, keyed by task name. -/
def build_task_execution_lists (df : List Event) : List (String × Recon) :=
  (tasksOf df).map (fun t => (t, reconcile (df.filter (fun e => e.task = t))))

structure TaskMetrics where
  avg_exec_time_ms : Option ℚ
  avg_response_ms : Option ℚ
  miss_ratio : ℚ
  total_exec_time_ms : ℚ
  release_count : Nat
deriving DecidableEq, Repr

/-- Integer-sequence `sum(...)`, valued in the rationals. -/
def sumQ : List Int → ℚ
  | [] => 0
  | x :: xs => (x : ℚ) + sumQ xs

/-- The metric row of `analyze_from_lists` (lines 94-104). `np.nan` for an
empty-sequence mean is modelled as `none`. -/
def summarize (exec_times resp_times releases : List Int) (misses : Nat) : TaskMetrics :=
  let total : ℚ := if releases.length > 0 then (releases.length : ℚ) else 1
  { avg_exec_time_ms :=
      if exec_times.isEmpty then none
      else some (round2 (sumQ exec_times / (exec_times.length : ℚ)))
    avg_response_ms :=
      if resp_times.isEmpty then none
      else some (round2 (sumQ resp_times / (resp_times.length : ℚ)))
    miss_ratio := round3 ((misses : ℚ) / total)
    total_exec_time_ms := round2 (sumQ exec_times)
    release_count := releases.length }

/-- The count `len(dft[dft.event == 'MISS'])` for one task. -/
def countMisses (df : List Event) (task : String) : Nat :=
  (df.filter (fun e => e.task = task ∧ e.event = .MISS)).length

/-- Embedding of `analyze_from_lists`: one summary row per reconciled task. -/
def analyze_from_lists (recs : List (String × Recon)) (df : List Event) :
    List (String × TaskMetrics) :=
  recs.map (fun p => (p.1, summarize p.2.execs p.2.resps p.2.releases (countMisses df p.1)))

/-- Model of `wd['time_ms'].diff().dropna()`: consecutive differences of a timestamp list. -/
def diffs : List Int → List Int
  | a :: b :: rest => (b - a) :: diffs (b :: rest)
  | _ => []

/-- The body of `watchdog_interval` applied to the `WDT` timestamp list:
`None` on fewer than two rows, else the mean consecutive difference rounded
to two decimals. -/
def wdMean (ts : List Int) : Option ℚ :=
  if ts.length < 2 then none
  else some (round2 (sumQ (diffs ts) / ((diffs ts).length : ℚ)))

/-- Embedding of `watchdog_interval` (lines 107-112): rows with task `'WDT'`. -/
def watchdog_interval (df : List Event) : Option ℚ :=
  wdMean ((df.filter (fun e => e.task = "WDT")).map (fun e => e.time_ms))

/-! ### Properties of the first-fit scan -/

theorem findMatchFrom_le {used : List Nat} {s : Int} {cs : List Int} :
    ∀ {k i : Nat} {c : Int}, findMatchFrom used s k cs = some (i, c) →
      s ≤ c ∧ i ∉ used := by
  induction cs with
  | nil => intro k i c h; simp [findMatchFrom] at h
  | cons c' cs ih =>
    intro k i c h
    rw [findMatchFrom] at h
    split at h
    · next hc =>
      simp only [Option.some.injEq, Prod.mk.injEq] at h
      obtain ⟨rfl, rfl⟩ := h
      exact ⟨hc.1, hc.2⟩
    · exact ih h

theorem findMatchFrom_some {used : List Nat} {s : Int} {cs : List Int} :
    ∀ {k i : Nat} {c : Int}, findMatchFrom used s k cs = some (i, c) →
      ∃ j, i = k + j ∧ j < cs.length ∧ cs.getD j 0 = c ∧ s ≤ c ∧ i ∉ used ∧
        ∀ j', j' < j → s ≤ cs.getD j' 0 → (k + j') ∈ used := by
  induction cs with
  | nil => intro k i c h; simp [findMatchFrom] at h
  | cons c' cs ih =>
    intro k i c h
    rw [findMatchFrom] at h
    split at h
    · next hc =>
      simp only [Option.some.injEq, Prod.mk.injEq] at h
      obtain ⟨rfl, rfl⟩ := h
      exact ⟨0, by omega, by simp, by simp, hc.1, hc.2,
        fun j' hj' _ => absurd hj' (by omega)⟩
    · next hc =>
      obtain ⟨j, rfl, hjlen, hget, hsc, hnot, hmin⟩ := ih h
      refine ⟨j + 1, by omega, by simp only [List.length_cons]; omega, ?_, hsc, hnot, ?_⟩
      · simpa using hget
      · intro j' hj' hle
        cases j' with
        | zero =>
          simp only [List.getD_cons_zero] at hle
          have hk : k ∈ used := by
            by_contra hk
            exact hc ⟨hle, hk⟩
          simpa using hk
        | succ j'' =>
          have hm := hmin j'' (by omega) (by simpa using hle)
          have he : k + (j'' + 1) = (k + 1) + j'' := by omega
          rw [he]
          exact hm

theorem findMatchFrom_none {used : List Nat} {s : Int} {cs : List Int} :
    ∀ {k : Nat}, findMatchFrom used s k cs = none →
      ∀ j, j < cs.length → s ≤ cs.getD j 0 → (k + j) ∈ used := by
  induction cs with
  | nil => intro k _ j hj; simp at hj
  | cons c' cs ih =>
    intro k h j hj hle
    rw [findMatchFrom] at h
    split at h
    · exact absurd h (by simp)
    · next hc =>
      cases j with
      | zero =>
        simp only [List.getD_cons_zero] at hle
        have hk : k ∈ used := by
          by_contra hk
          exact hc ⟨hle, hk⟩
        simpa using hk
      | succ j' =>
        have hm := ih h j' (by simp only [List.length_cons] at hj; omega)
          (by simpa using hle)
        have he : k + (j' + 1) = (k + 1) + j' := by omega
        rw [he]
        exact hm

theorem findMatch_le {completes used s i c} (h : findMatch completes used s = some (i, c)) :
    s ≤ c ∧ i ∉ used :=
  findMatchFrom_le h

theorem findMatch_some {completes : List Int} {used : List Nat} {s : Int} {i : Nat} {c : Int}
    (h : findMatch completes used s = some (i, c)) :
    i < completes.length ∧ completes.getD i 0 = c ∧ s ≤ c ∧ i ∉ used ∧
      ∀ j, j < i → s ≤ completes.getD j 0 → j ∈ used := by
  obtain ⟨j, hj, hjlen, hget, hsc, hnot, hmin⟩ := findMatchFrom_some h
  have hji : j = i := by omega
  subst hji
  exact ⟨hjlen, hget, hsc, hnot, fun j' hj' hle => by simpa using hmin j' hj' hle⟩

theorem findMatch_none {completes : List Int} {used : List Nat} {s : Int}
    (h : findMatch completes used s = none) :
    ∀ j, j < completes.length → s ≤ completes.getD j 0 → j ∈ used := by
  intro j hj hle
  simpa using findMatchFrom_none h j hj hle

/-! ### Properties of the pairing loop -/

theorem pairAux_eq_execSpecAux (completes : List Int) :
    ∀ starts used, (pairAux completes starts used).1 = execSpecAux completes starts used := by
  intro starts
  induction starts with
  | nil => intro used; rfl
  | cons s rest ih =>
    intro used
    rw [pairAux, execSpecAux]
    cases hfm : findMatch completes used s with
    | none => exact ih used
    | some ic =>
      obtain ⟨i, c⟩ := ic
      have hle := (findMatch_le hfm).1
      have hpos : 0 ≤ c - s := by omega
      simp only [hpos, if_true, if_pos]
      rw [ih (i :: used)]

theorem pairAux_used_nodup (completes : List Int) :
    ∀ starts used, used.Nodup → ((pairAux completes starts used).2.1).Nodup := by
  intro starts
  induction starts with
  | nil => intro used h; exact h
  | cons s rest ih =>
    intro used h
    rw [pairAux]
    cases hfm : findMatch completes used s with
    | none => exact ih used h
    | some ic =>
      obtain ⟨i, c⟩ := ic
      have hni := (findMatch_le hfm).2
      by_cases hpos : 0 ≤ c - s
      · simp only [if_pos hpos]
        exact ih (i :: used) (List.nodup_cons.mpr ⟨hni, h⟩)
      · simp only [if_neg hpos]
        exact ih (i :: used) (List.nodup_cons.mpr ⟨hni, h⟩)

theorem pairAux_nonneg (completes : List Int) :
    ∀ starts used d, d ∈ (pairAux completes starts used).1 → 0 ≤ d := by
  intro starts
  induction starts with
  | nil => intro used d h; simp [pairAux] at h
  | cons s rest ih =>
    intro used d h
    rw [pairAux] at h
    rcases hfm : findMatch completes used s with _ | ⟨i, c⟩
    · rw [hfm] at h
      exact ih used d h
    · rw [hfm] at h
      by_cases hpos : 0 ≤ c - s
      · simp only [if_pos hpos] at h
        rcases List.mem_cons.mp h with rfl | hm
        · exact hpos
        · exact ih (i :: used) d hm
      · simp only [if_neg hpos] at h
        exact ih (i :: used) d h

theorem pairAux_warns (completes : List Int) :
    ∀ starts used, (pairAux completes starts used).2.2 = 0 := by
  intro starts
  induction starts with
  | nil => intro used; rfl
  | cons s rest ih =>
    intro used
    rw [pairAux]
    cases hfm : findMatch completes used s with
    | none => exact ih used
    | some ic =>
      obtain ⟨i, c⟩ := ic
      have hle := (findMatch_le hfm).1
      have hpos : 0 ≤ c - s := by omega
      simp only [if_pos hpos]
      exact ih (i :: used)

theorem pairAux_length (completes : List Int) :
    ∀ starts used, (pairAux completes starts used).1.length ≤ starts.length := by
  intro starts
  induction starts with
  | nil => intro used; simp [pairAux]
  | cons s rest ih =>
    intro used
    rw [pairAux]
    cases hfm : findMatch completes used s with
    | none => exact le_trans (ih used) (Nat.le_succ _)
    | some ic =>
      obtain ⟨i, c⟩ := ic
      by_cases hpos : 0 ≤ c - s
      · simp only [if_pos hpos]
        exact Nat.succ_le_succ (ih (i :: used))
      · simp only [if_neg hpos]
        exact le_trans (ih (i :: used)) (Nat.le_succ _)

/-! ### The stable sort is a permutation -/

theorem insertEv_perm (e : Event) : ∀ l : List Event, (insertEv e l).Perm (e :: l) := by
  intro l
  induction l with
  | nil => exact List.Perm.refl _
  | cons x xs ih =>
    rw [insertEv]
    split
    · exact List.Perm.refl _
    · exact (ih.cons x).trans (List.Perm.swap e x xs)

theorem sortEv_perm : ∀ l : List Event, (sortEv l).Perm l := by
  intro l
  induction l with
  | nil => exact List.Perm.refl _
  | cons x xs ih => exact (insertEv_perm x (sortEv xs)).trans (ih.cons x)

theorem timesOf_sortEv_length (k : EventKind) (tl : List Event) :
    (timesOf k (sortEv tl)).length = (tl.filter (fun e => e.event = k)).length := by
  rw [timesOf, List.length_map]
  exact ((sortEv_perm tl).filter _).length_eq

/-! ### Watchdog interval helpers -/

/-- Arithmetic mean of an integer sequence, as a rational. -/
def meanQ (l : List Int) : ℚ := sumQ l / (l.length : ℚ)

theorem diffs_eq_zipWith : ∀ ts : List Int,
    diffs ts = List.zipWith (fun b a => b - a) ts.tail ts
  | [] => rfl
  | [_] => rfl
  | a :: b :: rest => by
    rw [diffs, diffs_eq_zipWith (b :: rest)]
    rfl

theorem diffs_length : ∀ ts : List Int, (diffs ts).length = ts.length - 1
  | [] => rfl
  | [_] => rfl
  | a :: b :: rest => by
    rw [diffs, List.length_cons, diffs_length (b :: rest)]
    simp only [List.length_cons]
    omega

theorem getLastD_cons_cons (a b d : Int) (l : List Int) :
    (a :: b :: l).getLastD d = (b :: l).getLastD d := by
  simp [List.getLastD]

theorem sumQ_diffs : ∀ (l : List Int) (a : Int),
    sumQ (diffs (a :: l)) = (((a :: l).getLastD 0 : Int) : ℚ) - (a : ℚ)
  | [], a => by simp [diffs, sumQ, List.getLastD]
  | b :: l, a => by
    rw [diffs, getLastD_cons_cons]
    have ih := sumQ_diffs l b
    rw [sumQ, ih]
    push_cast
    ring

/-! ### Rounding bounds -/

theorem round_le_round_q {x y : ℚ} (h : x ≤ y) : round x ≤ round y := by
  rw [round_eq, round_eq]
  exact Int.floor_le_floor (by linarith)

theorem round3_bounds {q : ℚ} (h0 : 0 ≤ q) (h1 : q ≤ 1) :
    0 ≤ round3 q ∧ round3 q ≤ 1 := by
  have l0 : (0 : ℤ) ≤ round (q * 1000) := by
    have := round_le_round_q (show (0 : ℚ) ≤ q * 1000 by nlinarith)
    simpa using this
  have l1 : round (q * 1000) ≤ 1000 := by
    have := round_le_round_q (show q * 1000 ≤ (1000 : ℚ) by nlinarith)
    simpa using this
  have c0 : (0 : ℚ) ≤ (round (q * 1000) : ℚ) := by exact_mod_cast l0
  have c1 : ((round (q * 1000) : ℤ) : ℚ) ≤ 1000 := by exact_mod_cast l1
  constructor
  · rw [round3]
    positivity
  · rw [round3]
    rw [div_le_one (by norm_num)]
    exact c1

/-! ### Keys of the per-task maps -/

theorem mem_tasksOf {df : List Event} {t : String} (h : t ∈ tasksOf df) :
    t ≠ "WDT" ∧ t ≠ "INFO" ∧ t ≠ "Supervisor" := by
  rw [tasksOf] at h
  have := List.of_mem_filter h
  exact of_decide_eq_true this

theorem build_keys (df : List Event) :
    (build_task_execution_lists df).map Prod.fst = tasksOf df := by
  rw [build_task_execution_lists, List.map_map]
  exact List.map_id _

theorem analyze_keys (recs : List (String × Recon)) (df : List Event) :
    (analyze_from_lists recs df).map Prod.fst = recs.map Prod.fst := by
  rw [analyze_from_lists, List.map_map]
  rfl

theorem reconcile_resps (tl : List Event) :
    (reconcile tl).resps
      = pairEvents (timesOf .RELEASE (sortEv tl)) (timesOf .COMPLETE (sortEv tl)) := rfl

/-! ### Concrete traces used in scenario checks -/

/-- A timeline where one COMPLETE serves both an Execution and a Response pairing. -/
def dfShared : List Event :=
  [⟨0, .START, "T1"⟩, ⟨0, .RELEASE, "T1"⟩, ⟨10, .COMPLETE, "T1"⟩]

/-- Two RELEASE-only timelines differing only in START events. -/
def dfRelStart : List Event :=
  [⟨0, .RELEASE, "T1"⟩, ⟨5, .START, "T1"⟩, ⟨10, .COMPLETE, "T1"⟩]

def dfRelOnly : List Event :=
  [⟨0, .RELEASE, "T1"⟩, ⟨10, .COMPLETE, "T1"⟩]

/-- Two MISS events and no RELEASE. -/
def dfMissOnly : List Event := [⟨1, .MISS, "T1"⟩, ⟨2, .MISS, "T1"⟩]

/-- Four RELEASE events and no MISS. -/
def dfFourReleases : List Event :=
  [⟨0, .RELEASE, "T1"⟩, ⟨10, .RELEASE, "T1"⟩, ⟨20, .RELEASE, "T1"⟩, ⟨30, .RELEASE, "T1"⟩]

/-- One RELEASE and two MISS events. -/
def dfOneRelTwoMiss : List Event :=
  [⟨0, .RELEASE, "T1"⟩, ⟨1, .MISS, "T1"⟩, ⟨2, .MISS, "T1"⟩]

/-! ### Claims -/

/-- C1: for every time-sorted task timeline, the reconciler pairs each START
timestamp `s`, taken in ascending order, with the lowest-index not-yet-consumed
COMPLETE timestamp `≥ s`, appends `complete - start` to the executions and
marks that COMPLETE consumed; a START with no unconsumed COMPLETE `≥ s`
contributes nothing.  Scenario: `START@10, COMPLETE@40, START@50, COMPLETE@45`
yields executions `[30]`. -/
theorem C1_first_fit_pairing :
    (∀ starts completes, pairEvents starts completes = execSpec starts completes)
    ∧ (∀ completes used s i c, findMatch completes used s = some (i, c) →
        i < completes.length ∧ completes.getD i 0 = c ∧ s ≤ c ∧ i ∉ used ∧
          ∀ j, j < i → s ≤ completes.getD j 0 → j ∈ used)
    ∧ (∀ completes used s, findMatch completes used s = none →
        ∀ j, j < completes.length → s ≤ completes.getD j 0 → j ∈ used)
    ∧ pairEvents [10, 50] [40, 45] = [30] := by
  refine ⟨?_, ?_, ?_, by decide⟩
  · intro starts completes
    exact pairAux_eq_execSpecAux completes starts []
  · intro completes used s i c h
    exact findMatch_some h
  · intro completes used s h
    exact findMatch_none h

theorem C1_first_fit_pairing_witness :
    0 < ([40, 45] : List Int).length ∧ ([40, 45] : List Int).getD 0 0 = 40
      ∧ (10 : Int) ≤ 40 ∧ 0 ∉ ([] : List Nat)
      ∧ ∀ j, j < 0 → (10 : Int) ≤ ([40, 45] : List Int).getD j 0 → j ∈ ([] : List Nat) :=
  C1_first_fit_pairing.2.1 [40, 45] [] 10 0 40 (by decide)

/-- C2: the response pairing uses a consumption set independent from the
execution pairing (responses depend only on the RELEASE and COMPLETE lists);
within one pool a COMPLETE index is consumed at most once; the same COMPLETE
may serve one Execution and one Response Interval simultaneously.  Scenario:
`RELEASE@0, RELEASE@100, COMPLETE@50, COMPLETE@150` yields responses `[50, 50]`. -/
theorem C2_independent_pools :
    (∀ tl1 tl2 : List Event,
        timesOf .RELEASE (sortEv tl1) = timesOf .RELEASE (sortEv tl2) →
        timesOf .COMPLETE (sortEv tl1) = timesOf .COMPLETE (sortEv tl2) →
        (reconcile tl1).resps = (reconcile tl2).resps)
    ∧ (∀ starts completes, (pairUsed starts completes).Nodup)
    ∧ pairEvents [0, 100] [50, 150] = [50, 50]
    ∧ (reconcile dfShared).execs = [10]
    ∧ (reconcile dfShared).resps = [10] := by
  refine ⟨?_, ?_, by decide, by decide, by decide⟩
  · intro tl1 tl2 hr hc
    rw [reconcile_resps, reconcile_resps, hr, hc]
  · intro starts completes
    exact pairAux_used_nodup completes starts [] List.nodup_nil

theorem C2_independent_pools_witness :
    (reconcile dfRelStart).resps = (reconcile dfRelOnly).resps :=
  C2_independent_pools.1 dfRelStart dfRelOnly (by decide) (by decide)

/-- C6: every duration appearing in the executions or responses sequences is
`≥ 0`; a matched pair with negative duration would be discarded with a
warning count (`pairWarns`) rather than an exception — and in fact the warning
branch never fires, because a matched COMPLETE is always `≥` its START. -/
theorem C6_durations_nonneg :
    (∀ tl, ((reconcile tl).execs.all (fun d => decide (0 ≤ d))) = true)
    ∧ (∀ tl, ((reconcile tl).resps.all (fun d => decide (0 ≤ d))) = true)
    ∧ (∀ starts completes, pairWarns starts completes = 0) := by
  refine ⟨?_, ?_, ?_⟩
  · intro tl
    rw [List.all_eq_true]
    intro d hd
    exact decide_eq_true
      (pairAux_nonneg (timesOf .COMPLETE (sortEv tl)) (timesOf .START (sortEv tl)) [] d hd)
  · intro tl
    rw [List.all_eq_true]
    intro d hd
    exact decide_eq_true
      (pairAux_nonneg (timesOf .COMPLETE (sortEv tl)) (timesOf .RELEASE (sortEv tl)) [] d hd)
  · intro starts completes
    exact pairAux_warns completes starts []

/-- C7: pairing never produces more samples than there are START
(resp. RELEASE) events: `len(executions) ≤ len(starts)` and
`len(responses) ≤ len(releases)`. -/
theorem C7_no_invented_samples :
    ∀ tl : List Event,
      (reconcile tl).execs.length ≤ (tl.filter (fun e => e.event = .START)).length
      ∧ (reconcile tl).resps.length ≤ (tl.filter (fun e => e.event = .RELEASE)).length
      ∧ (reconcile tl).resps.length ≤ (reconcile tl).releases.length := by
  intro tl
  refine ⟨?_, ?_, ?_⟩
  · rw [← timesOf_sortEv_length .START tl]
    exact pairAux_length (timesOf .COMPLETE (sortEv tl)) (timesOf .START (sortEv tl)) []
  · rw [← timesOf_sortEv_length .RELEASE tl]
    exact pairAux_length (timesOf .COMPLETE (sortEv tl)) (timesOf .RELEASE (sortEv tl)) []
  · exact pairAux_length (timesOf .COMPLETE (sortEv tl)) (timesOf .RELEASE (sortEv tl)) []

/-- C3: the reported miss ratio equals `miss_count / max(len(releases), 1)`
rounded to 3 decimals; 2 MISS events and 0 releases give `2.0` (not clamped),
0 MISS events and 4 releases give `0.0`. -/
theorem C3_miss_ratio :
    (∀ execs resps rels misses, (summarize execs resps rels misses).miss_ratio
        = round3 ((misses : ℚ) / ((max rels.length 1 : ℕ) : ℚ)))
    ∧ analyze_from_lists (build_task_execution_lists dfMissOnly) dfMissOnly
        = [("T1", ⟨none, none, 2, 0, 0⟩)]
    ∧ analyze_from_lists (build_task_execution_lists dfFourReleases) dfFourReleases
        = [("T1", ⟨none, none, 0, 0, 4⟩)] := by
  refine ⟨?_, ?_, ?_⟩
  · intro execs resps rels misses
    show round3 ((misses : ℚ) / (if rels.length > 0 then (rels.length : ℚ) else 1))
      = round3 ((misses : ℚ) / ((max rels.length 1 : ℕ) : ℚ))
    have hmax : (if rels.length > 0 then (rels.length : ℚ) else 1)
        = ((max rels.length 1 : ℕ) : ℚ) := by
      by_cases h : rels.length > 0
      · rw [if_pos h, Nat.max_eq_left (by omega : 1 ≤ rels.length)]
      · have h0 : rels.length = 0 := by omega
        rw [if_neg h, h0]
        norm_num
    rw [hmax]
  · have hb : build_task_execution_lists dfMissOnly = [("T1", ⟨[], [], []⟩)] := by decide
    have hm : countMisses dfMissOnly "T1" = 2 := by decide
    rw [hb, analyze_from_lists, List.map_cons, List.map_nil]
    simp only [hm]
    norm_num [summarize, round3, round2, round_eq, sumQ]
  · have hb : build_task_execution_lists dfFourReleases
        = [("T1", ⟨[], [], [0, 10, 20, 30]⟩)] := by decide
    have hm : countMisses dfFourReleases "T1" = 0 := by decide
    rw [hb, analyze_from_lists, List.map_cons, List.map_nil]
    simp only [hm]
    norm_num [summarize, round3, round2, round_eq, sumQ]

/-- C4 (counterexample): the task of `dfOneRelTwoMiss` has one RELEASE event,
yet its miss ratio is `2.0`, which is not `≤ 1` — the claim that the miss ratio
lies in `[0, 1]` for every task with at least one RELEASE is false, because the
code never bounds the MISS count by the release count. -/
theorem C4_counterexample :
    analyze_from_lists (build_task_execution_lists dfOneRelTwoMiss) dfOneRelTwoMiss
      = [("T1", ⟨none, none, 2, 0, 1⟩)] ∧ ¬ ((2 : ℚ) ≤ 1) := by
  constructor
  · have hb : build_task_execution_lists dfOneRelTwoMiss = [("T1", ⟨[], [], [0]⟩)] := by
      decide
    have hm : countMisses dfOneRelTwoMiss "T1" = 2 := by decide
    rw [hb, analyze_from_lists, List.map_cons, List.map_nil]
    simp only [hm]
    norm_num [summarize, round3, round2, round_eq, sumQ]
  · norm_num

/-- C4 (amended): for every task with at least one RELEASE event *whose MISS
count does not exceed its release count*, the computed miss ratio lies in
`[0, 1]`. -/
theorem C4_miss_ratio_bounds :
    ∀ execs resps rels misses, 0 < rels.length → misses ≤ rels.length →
      0 ≤ (summarize execs resps rels misses).miss_ratio
        ∧ (summarize execs resps rels misses).miss_ratio ≤ 1 := by
  intro execs resps rels m hpos hle
  have hq0 : (0 : ℚ) ≤ (m : ℚ) / (rels.length : ℚ) := by positivity
  have hq1 : (m : ℚ) / (rels.length : ℚ) ≤ 1 := by
    rw [div_le_one (by exact_mod_cast hpos)]
    exact_mod_cast hle
  have hr : (summarize execs resps rels m).miss_ratio
      = round3 ((m : ℚ) / (rels.length : ℚ)) := by
    show round3 ((m : ℚ) / (if rels.length > 0 then (rels.length : ℚ) else 1)) = _
    rw [if_pos hpos]
  rw [hr]
  exact round3_bounds hq0 hq1

theorem C4_miss_ratio_bounds_witness :
    0 < ([0, 10] : List Int).length ∧ 1 ≤ ([0, 10] : List Int).length
      ∧ (0 ≤ (summarize [] [] [0, 10] 1).miss_ratio
          ∧ (summarize [] [] [0, 10] 1).miss_ratio ≤ 1) :=
  ⟨by decide, by decide, C4_miss_ratio_bounds [] [] [0, 10] 1 (by decide) (by decide)⟩

/-- C5: the watchdog interval estimator returns `none` on fewer than two WDT
timestamps, and otherwise the arithmetic mean of the consecutive differences of
the timestamps rounded to 2 decimals; `[100, 600, 1150]` yields `525.0` and a
single timestamp yields `none`. -/
theorem C5_watchdog_interval :
    (∀ ts : List Int, ts.length < 2 → wdMean ts = none)
    ∧ (∀ ts : List Int, 2 ≤ ts.length →
        wdMean ts = some (round2 (meanQ (List.zipWith (fun b a => b - a) ts.tail ts))))
    ∧ (∀ df, watchdog_interval df
        = wdMean ((df.filter (fun e => e.task = "WDT")).map (fun e => e.time_ms)))
    ∧ wdMean [100, 600, 1150] = some 525
    ∧ wdMean [100] = none := by
  refine ⟨?_, ?_, fun df => rfl, ?_, by norm_num [wdMean]⟩
  · intro ts h
    rw [wdMean, if_pos h]
  · intro ts h
    rw [wdMean, if_neg (by omega), meanQ, ← diffs_eq_zipWith]
  · norm_num [wdMean, diffs, sumQ, round2, round_eq]

theorem C5_watchdog_interval_witness :
    (2 : ℕ) ≤ ([100, 600, 1150] : List Int).length
      ∧ wdMean [100, 600, 1150]
        = some (round2 (meanQ (List.zipWith (fun b a => b - a)
            ([100, 600, 1150] : List Int).tail [100, 600, 1150]))) :=
  ⟨by decide, C5_watchdog_interval.2.1 [100, 600, 1150] (by decide)⟩

/-- C8: when the executions (resp. responses) sequence is empty the mean
execution (resp. response) metric is `none` (never zero), while the total
execution time is the rounded sum, equal to `0` on the empty sequence. -/
theorem C8_empty_sequences :
    ∀ execs resps rels misses,
      (execs = [] → (summarize execs resps rels misses).avg_exec_time_ms = none)
      ∧ (resps = [] → (summarize execs resps rels misses).avg_response_ms = none)
      ∧ (summarize execs resps rels misses).total_exec_time_ms = round2 (sumQ execs)
      ∧ (execs = [] → (summarize execs resps rels misses).total_exec_time_ms = 0) := by
  intro execs resps rels m
  refine ⟨?_, ?_, rfl, ?_⟩
  · intro h
    subst h
    rfl
  · intro h
    subst h
    rfl
  · intro h
    subst h
    show round2 (sumQ []) = 0
    norm_num [sumQ, round2]

theorem C8_empty_sequences_witness :
    (summarize [] [] [] 0).avg_exec_time_ms = none
      ∧ (summarize [] [] [] 0).avg_response_ms = none
      ∧ (summarize [] [] [] 0).total_exec_time_ms = 0 :=
  ⟨(C8_empty_sequences [] [] [] 0).1 rfl, (C8_empty_sequences [] [] [] 0).2.1 rfl,
    (C8_empty_sequences [] [] [] 0).2.2.2 rfl⟩

/-- C9: the infrastructure pseudo-tasks `WDT`, `INFO` and `Supervisor` never
appear as keys of the per-task reconciliation maps nor as rows of the
task-level summary output. -/
theorem C9_infrastructure_excluded :
    ∀ df : List Event,
      ("WDT" ∉ (build_task_execution_lists df).map Prod.fst
        ∧ "INFO" ∉ (build_task_execution_lists df).map Prod.fst
        ∧ "Supervisor" ∉ (build_task_execution_lists df).map Prod.fst)
      ∧ ("WDT" ∉ (analyze_from_lists (build_task_execution_lists df) df).map Prod.fst
        ∧ "INFO" ∉ (analyze_from_lists (build_task_execution_lists df) df).map Prod.fst
        ∧ "Supervisor" ∉ (analyze_from_lists (build_task_execution_lists df) df).map Prod.fst) := by
  intro df
  have ha : (analyze_from_lists (build_task_execution_lists df) df).map Prod.fst
      = tasksOf df := by
    rw [analyze_keys, build_keys]
  have hW : "WDT" ∉ tasksOf df := fun h => (mem_tasksOf h).1 rfl
  have hI : "INFO" ∉ tasksOf df := fun h => (mem_tasksOf h).2.1 rfl
  have hS : "Supervisor" ∉ tasksOf df := fun h => (mem_tasksOf h).2.2 rfl
  rw [ha, build_keys]
  exact ⟨⟨hW, hI, hS⟩, ⟨hW, hI, hS⟩⟩

/-- C10: for `n ≥ 2` WDT timestamps the mean of consecutive differences
telescopes to `round((t_last - t_first) / (n - 1), 2)`, independent of the
intermediate timestamps. -/
theorem C10_telescoping :
    ∀ ts : List Int, 2 ≤ ts.length →
      wdMean ts = some (round2 (((ts.getLastD 0 : ℚ) - (ts.headD 0 : ℚ))
        / ((ts.length : ℚ) - 1))) := by
  intro ts h
  obtain ⟨a, l, rfl⟩ : ∃ a l, ts = a :: l := by
    cases ts with
    | nil => simp at h
    | cons a l => exact ⟨a, l, rfl⟩
  rw [wdMean, if_neg (by omega)]
  have h1 : sumQ (diffs (a :: l)) = (((a :: l).getLastD 0 : Int) : ℚ) - (a : ℚ) :=
    sumQ_diffs l a
  have h2 : (((diffs (a :: l)).length : ℕ) : ℚ) = (((a :: l).length : ℕ) : ℚ) - 1 := by
    rw [diffs_length]
    simp only [List.length_cons, Nat.add_sub_cancel]
    push_cast
    ring
  rw [h1, h2]
  rfl

theorem C10_telescoping_witness :
    wdMean [100, 600, 1150]
      = some (round2 (((([100, 600, 1150] : List Int).getLastD 0 : ℚ)
          - (([100, 600, 1150] : List Int).headD 0 : ℚ))
        / ((([100, 600, 1150] : List Int).length : ℚ) - 1))) :=
  C10_telescoping [100, 600, 1150] (by decide)
